import Mathlib

/-!
Verification of the IPv4 subnetting engine in `Subnetting/subnetting.py`.

Python strings are modelled as `List Char` (the repository only ever deals
with ASCII text: digits, dots, whitespace).  Python's arbitrary-precision
non-negative integers are modelled as `Nat`; user-supplied integers that may
be negative (the CIDR value and the desired subnet count, both read with
`int(input(...))`) are modelled as `Int`.  A Python function that can `raise`
is modelled as returning `Except (List Char) α`, the error payload being the
exception message.
-/

/-- Single-quote character, used in the error messages of `get_ip_address`. -/
def squote : Char := Char.ofNat 39

/-- The ten ASCII decimal digit characters. -/
def digitChars : List Char := [ '0', '1', '2', '3', '4', '5', '6', '7', '8', '9']

/-- Model of Python's per-character `str.isdigit` test, restricted to ASCII
(for ASCII text Python's `isdigit` accepts exactly the characters 0-9). -/
def isDigitCh (c : Char) : Bool := c ∈ digitChars

/-- Model of Python's `str.isdigit` on a whole string: non-empty and all
characters digits. -/
def pyIsDigit (l : List Char) : Bool := !l.isEmpty && l.all isDigitCh

/-- Characters removed by Python's `str.strip()` (ASCII whitespace). -/
def pySpaceB (c : Char) : Bool := c ∈ [ ' ', '\t', '\n', '\r', '\x0b', '\x0c']

/-- Model of Python's `str.strip()`: drop whitespace from both ends. -/
def pyStrip (l : List Char) : List Char :=
  ((l.dropWhile pySpaceB).reverse.dropWhile pySpaceB).reverse

/-- Model of Python's `s.split('.')`: `"" ↦ [""]`, `"a.b" ↦ ["a","b"]`,
`"." ↦ ["",""]`. -/
def splitDot : List Char → List (List Char)
  | [] => [[]]
  | c :: rest =>
    match splitDot rest with
    | [] => [[]]
    | q :: qs => if c = '.' then [] :: q :: qs else (c :: q) :: qs

/-- Model of Python's `'.'.join(parts)`. -/
def joinDot : List (List Char) → List Char
  | [] => []
  | [q] => q
  | q :: qs => q ++ '.' :: joinDot qs

/-- Model of Python's `s.replace('.', '')`. -/
def dropDots (l : List Char) : List Char := l.filter (fun c => ¬ (c = '.'))

/-- Model of Python's `int(s, base)` on digit-only strings: fold the digit
values most-significant-first. -/
def foldBase (base : Nat) (l : List Char) : Nat :=
  l.foldl (fun a c => base * a + (c.toNat - 48)) 0

/-- Digit character for a value below ten (as produced by Python's `str` /
`format`). -/
def digitChar (d : Nat) : Char := Char.ofNat (48 + d)

/-- Fuel-driven base-`b` rendering of a natural number, most significant
digit first; with fuel above the number itself it agrees with Python's
`str(n)` (base 10) and `format(n, 'b')` (base 2). -/
def natToBaseGo (b : Nat) : Nat → Nat → List Char
  | 0, _ => []
  | fuel + 1, n =>
    if n < b then [digitChar n]
    else natToBaseGo b fuel (n / b) ++ [digitChar (n % b)]

/-- Base-`b` decimal/binary rendering of a natural number. -/
def natToBase (b n : Nat) : List Char := natToBaseGo b (n + 1) n

/-- Model of Python's `str(n)` for a non-negative integer `n`. -/
def natToDec (n : Nat) : List Char := natToBase 10 n

/-- Model of Python's `str(i)` for a possibly negative integer `i`. -/
def intToDec (i : Int) : List Char :=
  if i < 0 then '-' :: natToDec (-i).toNat else natToDec i.toNat

/-- Model of Python's `format(n, '08b')`: minimal binary rendering, padded
with zeros on the left to at least eight characters. -/
def format08b (n : Nat) : List Char :=
  let r := natToBase 2 n
  List.replicate (8 - r.length) '0' ++ r

/-- Model of Python's `format(n, '032b')`: minimal binary rendering, padded
with zeros on the left to at least thirty-two characters. -/
def format032b (n : Nat) : List Char :=
  let r := natToBase 2 n
  List.replicate (32 - r.length) '0' ++ r

deriving instance DecidableEq for Except

/-!  Embeddings of the functions of `Subnetting/subnetting.py`. -/

/-- Embedding of `calculate_new_subnet_mask_for_subnets` (lines 17-41).
`math.ceil(math.log2(desired_subnets))` is modelled by `Nat.clog 2`, the
exact ceiling of the base-two logarithm; the double-precision computation in
the source agrees with it on every count whose result is small enough to
pass the `new_mask > 32` check (rounding of `log2` can only differ from the
exact value once the ceiling exceeds 46, where both sides take the error
branch). -/
def calculate_new_subnet_mask_for_subnets (base_mask desired_subnets : Int) :
    Except (List Char) (Int × Int × Int) :=
  if ¬ (0 ≤ base_mask ∧ base_mask ≤ 32) then
    .error ("CIDR must be between 0 and 32.".data)
  else if desired_subnets ≤ 0 then
    .error ("Number of subnets must be positive.".data)
  else
    let bits_to_borrow : Int := (Nat.clog 2 desired_subnets.toNat : Int)
    let new_mask : Int := base_mask + bits_to_borrow
    if 32 < new_mask then
      .error (("Cannot create ".data) ++ intToDec desired_subnets ++
        (" subnets from /".data) ++ intToDec base_mask ++
        (" because /".data) ++ intToDec new_mask ++ (" is > /32.".data))
    else
      let total_subnets : Int := (2 : Int) ^ bits_to_borrow.toNat
      .ok (new_mask, total_subnets, bits_to_borrow)

/-- Embedding of the octet-validation loop of `get_ip_address`
(lines 60-71): left to right, each part must be digit-only (else the
"not a valid number" error) and at most 255 (else the "outside 0-255 range"
error); on success it accumulates `str(octet)` and `format(octet, '08b')`. -/
def validate_octets : List (List Char) → Except (List Char) (List (List Char) × List (List Char))
  | [] => .ok ([], [])
  | part :: rest =>
    if ¬ (pyIsDigit part = true) then
      .error (("Octet ".data) ++ squote :: part ++ squote :: (" is not a valid number.".data))
    else
      let octet_value := foldBase 10 part
      if 255 < octet_value then
        .error (("Octet ".data) ++ squote :: part ++ squote :: (" is outside 0-255 range.".data))
      else do
        let (ds, bs) ← validate_octets rest
        .ok (natToDec octet_value :: ds, format08b octet_value :: bs)

/-- Embedding of `get_ip_address` (lines 45-76): strip, split on dots,
require exactly four octets, validate each, return the dotted-decimal and
dotted-binary renderings. -/
def get_ip_address (ip_string : List Char) : Except (List Char) (List Char × List Char) := do
  let parts := splitDot (pyStrip ip_string)
  if ¬ (parts.length = 4) then
    .error ("The IPv4 address must have exactly four octets.".data)
  else do
    let (octets_decimal, octets_binary) ← validate_octets parts
    .ok (joinDot octets_decimal, joinDot octets_binary)

/-- Embedding of the slicing `[binary_mask[i:i+8] for i in range(0, 32, 8)]`
used at lines 97 and 127: the four eight-character chunks of a 32-character
string. -/
def chunks8 (l : List Char) : List (List Char) :=
  (List.range 4).map (fun k => ((l.drop (8 * k)).take 8))

/-- Embedding of `cidr_to_subnet_mask` (lines 80-104). -/
def cidr_to_subnet_mask (cidr_int : Int) : Except (List Char) (List Char × List Char) :=
  if ¬ (0 ≤ cidr_int ∧ cidr_int ≤ 32) then
    .error ("CIDR must be in [0..32].".data)
  else
    let binary_mask := List.replicate cidr_int.toNat '1' ++
      List.replicate (32 - cidr_int.toNat) '0'
    let octets_binary := chunks8 binary_mask
    let octets_decimal := octets_binary.map (fun b => natToDec (foldBase 2 b))
    .ok (joinDot octets_decimal, joinDot octets_binary)

/-- Embedding of `get_network_address` (lines 108-134): undot, convert to
integers, bitwise AND, re-render as 32-bit binary and dotted decimal. -/
def get_network_address (ip_binary mask_binary : List Char) : List Char × List Char :=
  let ip_int := foldBase 2 (dropDots ip_binary)
  let mask_int := foldBase 2 (dropDots mask_binary)
  let network_int := ip_int &&& mask_int
  let network_binary := format032b network_int
  let network_octets_binary := chunks8 network_binary
  let network_octets_decimal := network_octets_binary.map (fun b => natToDec (foldBase 2 b))
  (joinDot network_octets_decimal, joinDot network_octets_binary)

/-- Embedding of `calculate_possible_hosts` (lines 138-151). -/
def calculate_possible_hosts (cidr_int : Int) : Int :=
  if cidr_int = 32 then 1
  else if cidr_int = 31 then 2
  else (2 : Int) ^ ((32 - cidr_int).toNat) - 2

/-- Embedding of `int_to_dotted` (lines 155-181): extract the four bytes
most-significant-first and join their decimal renderings with dots. -/
def int_to_dotted (ip_int : Nat) : List Char :=
  joinDot (((List.range 4).reverse).map (fun i => natToDec ((ip_int >>> (8 * i)) &&& 0xFF)))

/-- Size in addresses of one subnet under `new_mask` (line 196). -/
def subnet_size (new_mask : Nat) : Nat := 2 ^ (32 - new_mask)

/-- The `i`-th subnet network integer computed at line 207. -/
def subnet_network_int (base_network_int new_mask i : Nat) : Nat :=
  base_network_int + i * subnet_size new_mask

/-- The `i`-th subnet broadcast integer computed at line 210. -/
def subnet_broadcast_int (base_network_int new_mask i : Nat) : Nat :=
  subnet_network_int base_network_int new_mask i + subnet_size new_mask - 1

/-- One descriptor dictionary of `get_subnet_ranges` (lines 224-230). -/
structure SubnetInfo where
  subnet_index : Nat
  network : List Char
  broadcast : List Char
  first_host : List Char
  last_host : List Char
deriving DecidableEq, Repr

/-- The descriptor built in iteration `i` of the loop of `get_subnet_ranges`
(lines 205-231). -/
def subnet_info (base_network_int new_mask i : Nat) : SubnetInfo :=
  { subnet_index := i + 1
    network := int_to_dotted (subnet_network_int base_network_int new_mask i)
    broadcast := int_to_dotted (subnet_broadcast_int base_network_int new_mask i)
    first_host :=
      if 31 ≤ new_mask then "N/A".data
      else int_to_dotted (subnet_network_int base_network_int new_mask i + 1)
    last_host :=
      if 31 ≤ new_mask then "N/A".data
      else int_to_dotted (subnet_broadcast_int base_network_int new_mask i - 1) }

/-- Embedding of `get_subnet_ranges` (lines 185-233). -/
def get_subnet_ranges (base_network_int new_mask total_subnets : Nat) : List SubnetInfo :=
  (List.range total_subnets).map (subnet_info base_network_int new_mask)

/-- Embedding of steps 2-5 of the main flow (lines 280-294): parse the
address, render the original mask, AND them, and read the resulting binary
string back as the base network integer. -/
def base_network_int (input_ipv4_address : List Char) (original_mask : Int) :
    Except (List Char) Nat := do
  let (_dotted, binary_format_ip) ← get_ip_address input_ipv4_address
  let (_mask_dotted, orig_mask_binary) ← cidr_to_subnet_mask original_mask
  let (_net_dotted, base_network_binary) := get_network_address binary_format_ip orig_mask_binary
  .ok (foldBase 2 (dropDots base_network_binary))

/-- Integer value of the binary mask string built at line 93, as read back
at line 120 by `int(mask_raw, 2)`; this is the mask integer of a given
number of leading one bits. -/
def mask_int_of (p : Nat) : Nat :=
  foldBase 2 (List.replicate p '1' ++ List.replicate (32 - p) '0')

/-- Modelled from the spec: the claim C3 normalization of a dotted string,
"strips leading zeros in each octet" (an all-zero octet keeps one zero). -/
def stripLeadingZeros (l : List Char) : List Char :=
  if l.dropWhile (fun c => c = '0') = [] then [ '0' ]
  else l.dropWhile (fun c => c = '0')

/-- Modelled from the spec: normalization of a dotted address string for the
round-trip law of claim C3. -/
def normalize_spec (s : List Char) : List Char :=
  joinDot ((splitDot s).map stripLeadingZeros)

/-!  Basic facts about digit characters. -/

lemma isDigitCh_cases {c : Char} (h : isDigitCh c = true) :
    c = '0' ∨ c = '1' ∨ c = '2' ∨ c = '3' ∨ c = '4' ∨ c = '5' ∨ c = '6' ∨
    c = '7' ∨ c = '8' ∨ c = '9' := by
  simpa [isDigitCh, digitChars] using h

lemma digitChar_isDigit {d : Nat} (hd : d < 10) : isDigitCh (digitChar d) = true := by
  interval_cases d <;> decide

lemma digitChar_val {d : Nat} (hd : d < 10) : (digitChar d).toNat - 48 = d := by
  interval_cases d <;> decide

lemma digitChar_ne_dot {d : Nat} (hd : d < 10) : ¬ (digitChar d = '.') := by
  interval_cases d <;> decide

lemma digitChar_not_space {d : Nat} (hd : d < 10) : pySpaceB (digitChar d) = false := by
  interval_cases d <;> decide

lemma digitChar_of_val {c : Char} (h : isDigitCh c = true) : digitChar (c.toNat - 48) = c := by
  rcases isDigitCh_cases h with h | h | h | h | h | h | h | h | h | h <;> subst h <;> decide

lemma val_lt_ten {c : Char} (h : isDigitCh c = true) : c.toNat - 48 < 10 := by
  rcases isDigitCh_cases h with h | h | h | h | h | h | h | h | h | h <;> subst h <;> decide

lemma digit_not_space {c : Char} (h : isDigitCh c = true) : pySpaceB c = false := by
  rcases isDigitCh_cases h with h | h | h | h | h | h | h | h | h | h <;> subst h <;> decide

lemma digit_ne_dot {c : Char} (h : isDigitCh c = true) : ¬ (c = '.') := by
  rcases isDigitCh_cases h with h | h | h | h | h | h | h | h | h | h <;> subst h <;> decide

lemma dot_not_space : pySpaceB '.' = false := by decide

/-!  Facts about `foldBase`. -/

lemma foldBase_go (b : Nat) (l : List Char) :
    ∀ a, l.foldl (fun a c => b * a + (c.toNat - 48)) a = a * b ^ l.length + foldBase b l := by
  induction l with
  | nil => intro a; simp [foldBase]
  | cons c t ih =>
    intro a
    simp only [List.foldl_cons, foldBase, List.length_cons]
    rw [ih (b * a + (c.toNat - 48)), ih (b * 0 + (c.toNat - 48))]
    ring

lemma foldBase_cons (b : Nat) (c : Char) (t : List Char) :
    foldBase b (c :: t) = (c.toNat - 48) * b ^ t.length + foldBase b t := by
  have h := foldBase_go b t (b * 0 + (c.toNat - 48))
  simp only [foldBase, List.foldl_cons] at h ⊢
  rw [h]; ring

lemma foldBase_append (b : Nat) (l₁ l₂ : List Char) :
    foldBase b (l₁ ++ l₂) = foldBase b l₁ * b ^ l₂.length + foldBase b l₂ := by
  have h := foldBase_go b l₂ (List.foldl (fun a c => b * a + (c.toNat - 48)) 0 l₁)
  simp only [foldBase, List.foldl_append] at h ⊢
  rw [h]

lemma foldBase_replicate_zero (b k : Nat) : foldBase b (List.replicate k '0') = 0 := by
  induction k with
  | zero => simp [foldBase]
  | succ n ih =>
    rw [List.replicate_succ, foldBase_cons, ih]
    have h0 : '0'.toNat - 48 = 0 := by decide
    simp [h0]

lemma foldBase_lt {b : Nat} (l : List Char) (h : ∀ c ∈ l, c.toNat - 48 < b) :
    foldBase b l < b ^ l.length := by
  induction l with
  | nil => simp [foldBase]
  | cons c t ih =>
    rw [foldBase_cons, List.length_cons]
    have hc := h c (by simp)
    have ht := ih (fun x hx => h x (by simp [hx]))
    calc (c.toNat - 48) * b ^ t.length + foldBase b t
        < (c.toNat - 48) * b ^ t.length + b ^ t.length := Nat.add_lt_add_left ht _
      _ = (c.toNat - 48 + 1) * b ^ t.length := by ring
      _ ≤ b * b ^ t.length := Nat.mul_le_mul_right _ (by omega)
      _ = b ^ (t.length + 1) := by ring

/-!  Facts about `natToBase`. -/

lemma natToBaseGo_congr {b : Nat} (hb : 2 ≤ b) :
    ∀ f g n, n < f → n < g → natToBaseGo b f n = natToBaseGo b g n := by
  intro f
  induction f with
  | zero => intro g n hf; omega
  | succ f ih =>
    intro g n hf hg
    cases g with
    | zero => omega
    | succ g =>
      simp only [natToBaseGo]
      by_cases hn : n < b
      · simp [hn]
      · simp only [if_neg hn]
        have hdiv : n / b < n := Nat.div_lt_self (by omega) (by omega)
        rw [ih g (n / b) (by omega) (by omega)]

lemma natToBase_eq {b : Nat} (hb : 2 ≤ b) (n : Nat) :
    natToBase b n = if n < b then [digitChar n]
      else natToBase b (n / b) ++ [digitChar (n % b)] := by
  have h1 : natToBase b n =
      if n < b then [digitChar n] else natToBaseGo b n (n / b) ++ [digitChar (n % b)] := rfl
  rw [h1]
  by_cases hn : n < b
  · simp [hn]
  · simp only [if_neg hn]
    have hdiv : n / b < n := Nat.div_lt_self (by omega) (by omega)
    rw [natToBaseGo_congr hb n (n / b + 1) (n / b) (by omega) (by omega)]
    rfl

lemma foldBase_singleton (b : Nat) (c : Char) : foldBase b [c] = c.toNat - 48 := by
  rw [show ([c] : List Char) = c :: [] from rfl, foldBase_cons]
  simp [foldBase]

lemma natToBase_ne_nil {b : Nat} (hb : 2 ≤ b) (n : Nat) : ¬ (natToBase b n = []) := by
  rw [natToBase_eq hb]
  by_cases hn : n < b <;> simp [hn]

lemma natToBase_digits {b : Nat} (hb : 2 ≤ b) (n : Nat) :
    ∀ c ∈ natToBase b n, ∃ d, d < b ∧ c = digitChar d := by
  induction n using Nat.strong_induction_on with
  | _ n ih =>
    rw [natToBase_eq hb]
    by_cases hn : n < b
    · simp only [if_pos hn, List.mem_singleton]
      intro c hc
      exact ⟨n, hn, hc⟩
    · simp only [if_neg hn, List.mem_append, List.mem_singleton]
      intro c hc
      rcases hc with hc | hc
      · exact ih (n / b) (Nat.div_lt_self (by omega) (by omega)) c hc
      · exact ⟨n % b, Nat.mod_lt _ (by omega), hc⟩

lemma foldBase_natToBase {b : Nat} (hb : 2 ≤ b) (hb10 : b ≤ 10) (n : Nat) :
    foldBase b (natToBase b n) = n := by
  induction n using Nat.strong_induction_on with
  | _ n ih =>
    rw [natToBase_eq hb]
    by_cases hn : n < b
    · simp only [if_pos hn]
      rw [foldBase_singleton, digitChar_val (by omega : n < 10)]
    · simp only [if_neg hn]
      have hm : n % b < 10 := by
        have := Nat.mod_lt n (show 0 < b by omega)
        omega
      rw [foldBase_append, ih (n / b) (Nat.div_lt_self (by omega) (by omega)),
        foldBase_singleton, digitChar_val hm]
      simp only [List.length_singleton, pow_one]
      have h1 := Nat.div_add_mod n b
      have h2 : n / b * b = b * (n / b) := Nat.mul_comm _ _
      omega

lemma natToBase_length_le {b : Nat} (hb : 2 ≤ b) {n k : Nat} (hk : 1 ≤ k)
    (hn : n < b ^ k) : (natToBase b n).length ≤ k := by
  induction n using Nat.strong_induction_on generalizing k with
  | _ n ih =>
    rw [natToBase_eq hb]
    by_cases hl : n < b
    · simp [hl, hk]
    · simp only [if_neg hl, List.length_append, List.length_cons, List.length_nil]
      have hk2 : 2 ≤ k := by
        by_contra hc
        have hk1 : k = 1 := by omega
        subst hk1
        simp [pow_one] at hn
        omega
      have hdivlt : n / b < b ^ (k - 1) := by
        rw [Nat.div_lt_iff_lt_mul (by omega : 0 < b)]
        have hbk : b ^ (k - 1) * b = b ^ k := by
          rw [← pow_succ]
          congr 1
          omega
        omega
      have := ih (n / b) (Nat.div_lt_self (by omega) (by omega)) (by omega : 1 ≤ k - 1) hdivlt
      omega

lemma foldBase_ge_one {c : Char} {t : List Char} (hc : isDigitCh c = true)
    (h0 : ¬ (c = '0')) : 1 ≤ foldBase 10 (c :: t) := by
  rw [foldBase_cons]
  have hv : 1 ≤ c.toNat - 48 := by
    rcases isDigitCh_cases hc with h | h | h | h | h | h | h | h | h | h <;> subst h <;>
      first
      | exact absurd rfl h0
      | decide
  have hp : 1 ≤ (10 : Nat) ^ t.length := Nat.one_le_two_pow.trans (Nat.pow_le_pow_left (by omega) _)
  have := Nat.mul_le_mul hv hp
  omega

lemma natToDec_foldBase_eq (m : List Char) (hd : ∀ c ∈ m, isDigitCh c = true)
    (hm : ¬ (m = [])) (h0 : ∀ c t, m = c :: t → ¬ (c = '0')) :
    natToBase 10 (foldBase 10 m) = m := by
  induction m using List.reverseRecOn with
  | nil => exact absurd rfl hm
  | append_singleton mp c ih =>
    have hc := hd c (by simp)
    have hv : c.toNat - 48 < 10 := val_lt_ten hc
    cases mp with
    | nil =>
      simp only [List.nil_append]
      rw [foldBase_singleton, natToBase_eq (by omega : (2 : Nat) ≤ 10)]
      simp only [if_pos hv]
      rw [digitChar_of_val hc]
    | cons ch tl =>
      have hch : isDigitCh ch = true := hd ch (by simp)
      have hch0 : ¬ (ch = '0') := h0 ch (tl ++ [c]) (by simp)
      have hA : 1 ≤ foldBase 10 (ch :: tl) := foldBase_ge_one hch hch0
      rw [foldBase_append, foldBase_singleton]
      simp only [List.length_singleton, pow_one]
      set A := foldBase 10 (ch :: tl) with hAdef
      rw [natToBase_eq (by omega : (2 : Nat) ≤ 10)]
      have hge : ¬ (A * 10 + (c.toNat - 48) < 10) := by omega
      simp only [if_neg hge]
      have hdiv : (A * 10 + (c.toNat - 48)) / 10 = A := by omega
      have hmod : (A * 10 + (c.toNat - 48)) % 10 = c.toNat - 48 := by omega
      rw [hdiv, hmod, digitChar_of_val hc, hAdef]
      rw [ih (fun x hx => hd x (by simp at hx ⊢; tauto)) (by simp)
        (fun c2 t2 h2 => by
          injection h2 with h2a h2b
          rw [← h2a]
          exact hch0)]
/-!  Facts about `splitDot`, `joinDot`, `dropDots`, `pyStrip`, `chunks8`. -/

lemma splitDot_surj (l : List Char) : ∃ r rs, splitDot l = r :: rs := by
  induction l with
  | nil => exact ⟨[], [], rfl⟩
  | cons c t ih =>
    obtain ⟨r, rs, hr⟩ := ih
    simp only [splitDot, hr]
    by_cases hc : c = '.'
    · exact ⟨[], r :: rs, by simp [hc]⟩
    · exact ⟨c :: r, rs, by simp [hc]⟩

lemma splitDot_no_dot {l : List Char} (h : ¬ '.' ∈ l) : splitDot l = [l] := by
  induction l with
  | nil => rfl
  | cons c t ih =>
    have hc : ¬ (c = '.') := fun he => h (by simp [he])
    have ht : ¬ '.' ∈ t := fun he => h (by simp [he])
    simp only [splitDot, ih ht]
    simp [hc]

lemma splitDot_append {q : List Char} (t : List Char) (hq : ¬ '.' ∈ q) :
    splitDot (q ++ '.' :: t) = q :: splitDot t := by
  induction q with
  | nil =>
    obtain ⟨r, rs, hr⟩ := splitDot_surj t
    simp only [List.nil_append, splitDot, hr]
    simp
  | cons c q ih =>
    have hc : ¬ (c = '.') := fun he => hq (by simp [he])
    have hq2 : ¬ '.' ∈ q := fun he => hq (by simp [he])
    have heq := ih hq2
    simp only [List.cons_append, splitDot]
    simp only [List.append_eq]
    rw [heq]
    simp [hc]

lemma joinDot_cons {q : List Char} {ps : List (List Char)} (h : ¬ (ps = [])) :
    joinDot (q :: ps) = q ++ '.' :: joinDot ps := by
  cases ps with
  | nil => exact absurd rfl h
  | cons r rs => rfl

lemma splitDot_joinDot (parts : List (List Char)) (hne : ¬ (parts = []))
    (h : ∀ q ∈ parts, ¬ '.' ∈ q) : splitDot (joinDot parts) = parts := by
  induction parts with
  | nil => exact absurd rfl hne
  | cons q ps ih =>
    by_cases hps : ps = []
    · subst hps
      exact splitDot_no_dot (h q (by simp))
    · rw [joinDot_cons hps, splitDot_append _ (h q (by simp)),
        ih hps (fun r hr => h r (by simp [hr]))]

lemma dropDots_no_dot {l : List Char} (h : ¬ '.' ∈ l) : dropDots l = l := by
  apply List.filter_eq_self.mpr
  intro a ha
  simp only [decide_eq_true_eq]
  exact fun he => h (he ▸ ha)

lemma dropDots_cons_dot (t : List Char) : dropDots ('.' :: t) = dropDots t := by
  simp [dropDots]

lemma dropDots_joinDot (parts : List (List Char)) (h : ∀ q ∈ parts, ¬ '.' ∈ q) :
    dropDots (joinDot parts) = parts.join := by
  induction parts with
  | nil => rfl
  | cons q ps ih =>
    by_cases hps : ps = []
    · subst hps
      simp only [joinDot, List.join]
      rw [dropDots_no_dot (h q (by simp))]
      simp
    · rw [joinDot_cons hps]
      have h1 : dropDots (q ++ '.' :: joinDot ps) = dropDots q ++ dropDots ('.' :: joinDot ps) := by
        simp [dropDots]
      rw [h1, dropDots_cons_dot, dropDots_no_dot (h q (by simp)),
        ih (fun r hr => h r (by simp [hr]))]
      simp

lemma dropWhile_eq_self {p : Char → Bool} {l : List Char} (h : ∀ c ∈ l, p c = false) :
    l.dropWhile p = l := by
  cases l with
  | nil => rfl
  | cons c t => simp [List.dropWhile_cons, h c (by simp)]

lemma pyStrip_eq_self {l : List Char} (h : ∀ c ∈ l, pySpaceB c = false) : pyStrip l = l := by
  unfold pyStrip
  rw [dropWhile_eq_self h,
    dropWhile_eq_self (fun c hc => h c (List.mem_reverse.mp hc)), List.reverse_reverse]

lemma chunks8_eq (l : List Char) :
    chunks8 l = [l.take 8, (l.drop 8).take 8, (l.drop 16).take 8, (l.drop 24).take 8] := by
  simp only [chunks8]
  rfl

lemma chunks8_join {l : List Char} (h : l.length = 32) : (chunks8 l).join = l := by
  rw [chunks8_eq]
  have h24 : (l.drop 24).take 8 = l.drop 24 := List.take_of_length_le (by simp [h])
  have e16 : (l.drop 16).take 8 ++ l.drop 24 = l.drop 16 := by
    have h16 : (l.drop 16).drop 8 = l.drop 24 := by rw [List.drop_drop]
    rw [← h16, List.take_append_drop]
  have e8 : (l.drop 8).take 8 ++ l.drop 16 = l.drop 8 := by
    have h8 : (l.drop 8).drop 8 = l.drop 16 := by rw [List.drop_drop]
    rw [← h8, List.take_append_drop]
  show l.take 8 ++ ((l.drop 8).take 8 ++ ((l.drop 16).take 8 ++ ((l.drop 24).take 8 ++ []))) = l
  rw [List.append_nil, h24, e16, e8, List.take_append_drop]

lemma chunks8_mem_subset {l q : List Char} (hq : q ∈ chunks8 l) : ∀ c ∈ q, c ∈ l := by
  rw [chunks8_eq] at hq
  simp only [List.mem_cons, List.mem_singleton, List.not_mem_nil, or_false] at hq
  intro c hc
  rcases hq with hq | hq | hq | hq <;> rw [hq] at hc <;>
    first
    | exact (List.take_sublist _ _).subset hc
    | exact ((List.take_sublist _ _).trans (List.drop_sublist _ _)).subset hc

/-!  Facts about `format08b` and `format032b`. -/

lemma foldBase_format08b (n : Nat) : foldBase 2 (format08b n) = n := by
  unfold format08b
  rw [foldBase_append, foldBase_replicate_zero,
    foldBase_natToBase (by omega) (by omega)]
  simp

lemma format08b_length {n : Nat} (h : n < 256) : (format08b n).length = 8 := by
  unfold format08b
  have := natToBase_length_le (by omega : (2 : Nat) ≤ 2) (by omega : 1 ≤ 8)
    (show n < 2 ^ 8 by omega)
  simp only [List.length_append, List.length_replicate]
  omega

lemma format08b_chars {n : Nat} : ∀ c ∈ format08b n, c = '0' ∨ c = '1' := by
  unfold format08b
  intro c hc
  simp only [List.mem_append] at hc
  rcases hc with hc | hc
  · exact Or.inl (List.eq_of_mem_replicate hc)
  · obtain ⟨d, hd, rfl⟩ := natToBase_digits (by omega) n c hc
    interval_cases d
    · exact Or.inl rfl
    · exact Or.inr rfl

lemma foldBase_format032b (n : Nat) : foldBase 2 (format032b n) = n := by
  unfold format032b
  rw [foldBase_append, foldBase_replicate_zero,
    foldBase_natToBase (by omega) (by omega)]
  simp

lemma format032b_length {n : Nat} (h : n < 4294967296) : (format032b n).length = 32 := by
  unfold format032b
  have := natToBase_length_le (by omega : (2 : Nat) ≤ 2) (by omega : 1 ≤ 32)
    (show n < 2 ^ 32 by omega)
  simp only [List.length_append, List.length_replicate]
  omega

lemma format032b_chars {n : Nat} : ∀ c ∈ format032b n, c = '0' ∨ c = '1' := by
  unfold format032b
  intro c hc
  simp only [List.mem_append] at hc
  rcases hc with hc | hc
  · exact Or.inl (List.eq_of_mem_replicate hc)
  · obtain ⟨d, hd, rfl⟩ := natToBase_digits (by omega) n c hc
    interval_cases d
    · exact Or.inl rfl
    · exact Or.inr rfl

lemma binary_char_ne_dot {c : Char} (h : c = '0' ∨ c = '1') : ¬ '.' ∈ [c] := by
  rcases h with h | h <;> subst h <;> decide
/-!  Bit and byte arithmetic helpers. -/

lemma and_255_eq_mod (n : Nat) : n &&& 255 = n % 256 := by
  have h : (255 : Nat) = 2 ^ 8 - 1 := rfl
  rw [h, Nat.and_pow_two_sub_one_eq_mod]

lemma byte_eq (n k : Nat) : (n >>> k) &&& 255 = n / 2 ^ k % 256 := by
  rw [Nat.shiftRight_eq_div_pow, and_255_eq_mod]

lemma int_to_dotted_eq (n : Nat) :
    int_to_dotted n = joinDot [natToDec (n / 16777216 % 256), natToDec (n / 65536 % 256),
      natToDec (n / 256 % 256), natToDec (n % 256)] := by
  have h0 : (n >>> (8 * 0)) &&& 255 = n % 256 := by
    rw [byte_eq]
    norm_num
  have h1 : (n >>> (8 * 1)) &&& 255 = n / 256 % 256 := by
    rw [byte_eq]
    norm_num
  have h2 : (n >>> (8 * 2)) &&& 255 = n / 65536 % 256 := by
    rw [byte_eq]
    norm_num
  have h3 : (n >>> (8 * 3)) &&& 255 = n / 16777216 % 256 := by
    rw [byte_eq]
    norm_num
  simp only [int_to_dotted, List.range_succ, List.range_zero, List.nil_append,
    List.cons_append, List.reverse_cons, List.reverse_nil, List.map_cons, List.map_nil]
  rw [h0, h1, h2, h3]

lemma int_to_dotted_mod (x : Nat) : int_to_dotted x = int_to_dotted (x % 4294967296) := by
  rw [int_to_dotted_eq, int_to_dotted_eq]
  have e3 : x % 4294967296 / 16777216 % 256 = x / 16777216 % 256 := by omega
  have e2 : x % 4294967296 / 65536 % 256 = x / 65536 % 256 := by omega
  have e1 : x % 4294967296 / 256 % 256 = x / 256 % 256 := by omega
  have e0 : x % 4294967296 % 256 = x % 256 := by omega
  rw [e0, e1, e2, e3]

lemma bytes_recompose {x : Nat} (h : x < 4294967296) :
    (x / 16777216 % 256) * 16777216 + (x / 65536 % 256) * 65536 +
      (x / 256 % 256) * 256 + x % 256 = x := by
  omega

/-!  Facts about the binary mask string and its integer value. -/

lemma foldBase_ones (p : Nat) : foldBase 2 (List.replicate p '1') = 2 ^ p - 1 := by
  induction p with
  | zero => simp [foldBase]
  | succ n ih =>
    have hv : '1'.toNat - 48 = 1 := by decide
    rw [List.replicate_succ, foldBase_cons, ih, List.length_replicate, hv, one_mul]
    have hp : 2 ^ (n + 1) = 2 * 2 ^ n := by ring
    have hone : 1 ≤ 2 ^ n := Nat.one_le_two_pow
    omega

lemma mask_int_of_eq (p : Nat) : mask_int_of p = (2 ^ p - 1) * 2 ^ (32 - p) := by
  unfold mask_int_of
  rw [foldBase_append, foldBase_ones, foldBase_replicate_zero, List.length_replicate]
  omega

lemma mask_int_of_lt {p : Nat} (hp : p ≤ 32) : mask_int_of p < 4294967296 := by
  rw [mask_int_of_eq]
  have h1 : (2 ^ p - 1) * 2 ^ (32 - p) < 2 ^ p * 2 ^ (32 - p) := by
    have hlt : 2 ^ p - 1 < 2 ^ p := by
      have := @Nat.one_le_two_pow p
      omega
    exact (Nat.mul_lt_mul_right (Nat.two_pow_pos _)).mpr hlt
  have h2 : 2 ^ p * 2 ^ (32 - p) = 2 ^ 32 := by
    rw [← pow_add]
    congr 1
    omega
  calc (2 ^ p - 1) * 2 ^ (32 - p) < 2 ^ p * 2 ^ (32 - p) := h1
    _ = 2 ^ 32 := h2
    _ = 4294967296 := by norm_num

lemma testBit_mask_int_of {p : Nat} (hp : p ≤ 32) (j : Nat) :
    (mask_int_of p).testBit j = true ↔ 32 - p ≤ j ∧ j < 32 := by
  rw [mask_int_of_eq, ← Nat.shiftLeft_eq, Nat.testBit_shiftLeft,
    Nat.testBit_two_pow_sub_one]
  simp only [Bool.and_eq_true, decide_eq_true_eq, ge_iff_le]
  omega

/-!  The binary output of `get_network_address` denotes the bitwise AND of
its inputs. -/

lemma get_network_address_bin (ib mb : List Char)
    (hlt : (foldBase 2 (dropDots ib)) &&& (foldBase 2 (dropDots mb)) < 4294967296) :
    foldBase 2 (dropDots (get_network_address ib mb).2) =
      (foldBase 2 (dropDots ib)) &&& (foldBase 2 (dropDots mb)) := by
  unfold get_network_address
  simp only
  set net := (foldBase 2 (dropDots ib)) &&& (foldBase 2 (dropDots mb)) with hnet
  have hchars : ∀ q ∈ chunks8 (format032b net), ¬ '.' ∈ q := by
    intro q hq hdot
    have := chunks8_mem_subset hq '.' hdot
    rcases format032b_chars '.' this with h | h <;> exact absurd h (by decide)
  rw [dropDots_joinDot _ hchars, chunks8_join (format032b_length hlt), foldBase_format032b]
/-!  Characterization of `validate_octets` and `get_ip_address`. -/

lemma validate_octets_ok (parts : List (List Char))
    (h : ∀ q ∈ parts, pyIsDigit q = true ∧ foldBase 10 q ≤ 255) :
    validate_octets parts = .ok (parts.map (fun q => natToDec (foldBase 10 q)),
      parts.map (fun q => format08b (foldBase 10 q))) := by
  induction parts with
  | nil => rfl
  | cons q ps ih =>
    obtain ⟨hq, hle⟩ := h q (by simp)
    rw [validate_octets, if_neg (by simp [hq]), if_neg (by omega)]
    rw [ih (fun r hr => h r (by simp [hr]))]
    rfl

lemma validate_octets_ok_inv : ∀ (parts : List (List Char)) ds bs,
    validate_octets parts = .ok (ds, bs) →
    (∀ q ∈ parts, pyIsDigit q = true ∧ foldBase 10 q ≤ 255) ∧
    ds = parts.map (fun q => natToDec (foldBase 10 q)) ∧
    bs = parts.map (fun q => format08b (foldBase 10 q)) := by
  intro parts
  induction parts with
  | nil =>
    intro ds bs h
    rw [validate_octets] at h
    injection h with h
    injection h with h1 h2
    exact ⟨by simp, by simp [← h1], by simp [← h2]⟩
  | cons q ps ih =>
    intro ds bs h
    rw [validate_octets] at h
    by_cases hq : pyIsDigit q = true
    · rw [if_neg (by simp [hq])] at h
      by_cases hle : 255 < foldBase 10 q
      · rw [if_pos hle] at h
        exact absurd h (by simp)
      · rw [if_neg hle] at h
        cases hvo : validate_octets ps with
        | error e =>
          rw [hvo] at h
          exact absurd h (by simp [Bind.bind, Except.bind])
        | ok pr =>
          obtain ⟨ds2, bs2⟩ := pr
          rw [hvo] at h
          simp only [Bind.bind, Except.bind] at h
          injection h with h
          injection h with h1 h2
          obtain ⟨hall, hds, hbs⟩ := ih ds2 bs2 hvo
          refine ⟨?_, ?_, ?_⟩
          · intro r hr
            rcases List.mem_cons.mp hr with rfl | hr
            · exact ⟨hq, by omega⟩
            · exact hall r hr
          · rw [← h1, hds]
            simp
          · rw [← h2, hbs]
            simp
    · rw [if_pos (by simp [hq])] at h
      exact absurd h (by simp)

lemma validate_octets_err_nondigit : ∀ (pre : List (List Char)) q post,
    (∀ r ∈ pre, pyIsDigit r = true ∧ foldBase 10 r ≤ 255) →
    pyIsDigit q = false →
    validate_octets (pre ++ q :: post) =
      .error (("Octet ".data) ++ squote :: q ++ squote :: (" is not a valid number.".data)) := by
  intro pre
  induction pre with
  | nil =>
    intro q post hpre hq
    rw [List.nil_append, validate_octets, if_pos (by simp [hq])]
  | cons r pre ih =>
    intro q post hpre hq
    obtain ⟨hr, hrle⟩ := hpre r (by simp)
    rw [List.cons_append, validate_octets, if_neg (by simp [hr]), if_neg (by omega)]
    rw [ih q post (fun x hx => hpre x (by simp [hx])) hq]
    rfl

lemma validate_octets_err_range : ∀ (pre : List (List Char)) q post,
    (∀ r ∈ pre, pyIsDigit r = true ∧ foldBase 10 r ≤ 255) →
    pyIsDigit q = true → 255 < foldBase 10 q →
    validate_octets (pre ++ q :: post) =
      .error (("Octet ".data) ++ squote :: q ++ squote :: (" is outside 0-255 range.".data)) := by
  intro pre
  induction pre with
  | nil =>
    intro q post hpre hq hgt
    rw [List.nil_append, validate_octets, if_neg (by simp [hq]), if_pos hgt]
  | cons r pre ih =>
    intro q post hpre hq hgt
    obtain ⟨hr, hrle⟩ := hpre r (by simp)
    rw [List.cons_append, validate_octets, if_neg (by simp [hr]), if_neg (by omega)]
    rw [ih q post (fun x hx => hpre x (by simp [hx])) hq hgt]
    rfl

lemma get_ip_address_len_err (s : List Char)
    (h4 : ¬ ((splitDot (pyStrip s)).length = 4)) :
    get_ip_address s = .error ("The IPv4 address must have exactly four octets.".data) := by
  rw [get_ip_address, if_pos (by simp [h4])]

lemma get_ip_address_err_of_validate (s : List Char) (e : List Char)
    (h4 : (splitDot (pyStrip s)).length = 4)
    (hv : validate_octets (splitDot (pyStrip s)) = .error e) :
    get_ip_address s = .error e := by
  rw [get_ip_address, if_neg (by simp [h4]), hv]
  rfl

lemma get_ip_address_ok (s : List Char)
    (h4 : (splitDot (pyStrip s)).length = 4)
    (hv : ∀ q ∈ splitDot (pyStrip s), pyIsDigit q = true ∧ foldBase 10 q ≤ 255) :
    get_ip_address s = .ok
      (joinDot ((splitDot (pyStrip s)).map (fun q => natToDec (foldBase 10 q))),
       joinDot ((splitDot (pyStrip s)).map (fun q => format08b (foldBase 10 q)))) := by
  rw [get_ip_address, if_neg (by simp [h4]), validate_octets_ok _ hv]
  rfl

lemma get_ip_address_ok_inv {s d b : List Char} (h : get_ip_address s = .ok (d, b)) :
    (splitDot (pyStrip s)).length = 4 ∧
    (∀ q ∈ splitDot (pyStrip s), pyIsDigit q = true ∧ foldBase 10 q ≤ 255) ∧
    d = joinDot ((splitDot (pyStrip s)).map (fun q => natToDec (foldBase 10 q))) ∧
    b = joinDot ((splitDot (pyStrip s)).map (fun q => format08b (foldBase 10 q))) := by
  rw [get_ip_address] at h
  by_cases h4 : (splitDot (pyStrip s)).length = 4
  · rw [if_neg (by simp [h4])] at h
    cases hvo : validate_octets (splitDot (pyStrip s)) with
    | error e =>
      rw [hvo] at h
      exact absurd h (by simp [Bind.bind, Except.bind])
    | ok pr =>
      obtain ⟨ds, bs⟩ := pr
      rw [hvo] at h
      simp only [Bind.bind, Except.bind] at h
      injection h with h
      injection h with h1 h2
      obtain ⟨hall, hds, hbs⟩ := validate_octets_ok_inv _ _ _ hvo
      exact ⟨h4, hall, by rw [← h1, hds], by rw [← h2, hbs]⟩
  · rw [if_pos (by simp [h4])] at h
    exact absurd h (by simp)
/-!  Helpers about decimal renderings inside dotted strings. -/

lemma natToDec_all_digit (n : Nat) : ∀ c ∈ natToDec n, isDigitCh c = true := by
  intro c hc
  obtain ⟨d, hd, rfl⟩ := natToBase_digits (by omega) n c hc
  exact digitChar_isDigit hd

lemma natToDec_isDigit (n : Nat) : pyIsDigit (natToDec n) = true := by
  unfold pyIsDigit
  have hne := natToBase_ne_nil (by omega : (2 : Nat) ≤ 10) n
  rw [Bool.and_eq_true, List.all_eq_true]
  refine ⟨?_, natToDec_all_digit n⟩
  have hemp : ¬ ((natToDec n).isEmpty = true) := by
    rw [List.isEmpty_iff]
    exact hne
  cases hb : (natToDec n).isEmpty
  · rfl
  · exact absurd hb hemp

lemma foldBase10_natToDec (n : Nat) : foldBase 10 (natToDec n) = n :=
  foldBase_natToBase (by omega) (by omega) n

lemma natToDec_no_dot (n : Nat) : ¬ '.' ∈ natToDec n := by
  intro h
  exact digit_ne_dot (natToDec_all_digit n '.' h) rfl

lemma mem_joinDot {c : Char} :
    ∀ {parts : List (List Char)}, c ∈ joinDot parts → c = '.' ∨ ∃ q ∈ parts, c ∈ q := by
  intro parts
  induction parts with
  | nil => intro h; exact absurd h (List.not_mem_nil c)
  | cons q ps ih =>
    intro h
    by_cases hps : ps = []
    · subst hps
      exact Or.inr ⟨q, by simp, h⟩
    · rw [joinDot_cons hps] at h
      rcases List.mem_append.mp h with h | h
      · exact Or.inr ⟨q, by simp, h⟩
      · rcases List.mem_cons.mp h with h | h
        · exact Or.inl h
        · rcases ih h with h | ⟨r, hr, hcr⟩
          · exact Or.inl h
          · exact Or.inr ⟨r, by simp [hr], hcr⟩

lemma pyStrip_joinDot_digits {parts : List (List Char)}
    (h : ∀ q ∈ parts, ∀ c ∈ q, isDigitCh c = true) :
    pyStrip (joinDot parts) = joinDot parts := by
  apply pyStrip_eq_self
  intro c hc
  rcases mem_joinDot hc with rfl | ⟨q, hq, hcq⟩
  · exact dot_not_space
  · exact digit_not_space (h q hq c hcq)

lemma foldBase_dropWhile_zero (l : List Char) :
    foldBase 10 (l.dropWhile (fun c => c = '0')) = foldBase 10 l := by
  induction l with
  | nil => rfl
  | cons c t ih =>
    by_cases hc : c = '0'
    · subst hc
      rw [List.dropWhile_cons_of_pos (by simp), ih, foldBase_cons]
      have h0 : '0'.toNat - 48 = 0 := by decide
      simp [h0]
    · rw [List.dropWhile_cons_of_neg (by simp [hc])]

lemma natToDec_stripLeadingZeros {l : List Char} (hne : ¬ (l = []))
    (hd : ∀ c ∈ l, isDigitCh c = true) :
    natToDec (foldBase 10 l) = stripLeadingZeros l := by
  unfold stripLeadingZeros
  by_cases hz : l.dropWhile (fun c => c = '0') = []
  · rw [if_pos hz]
    have hval : foldBase 10 l = 0 := by
      rw [← foldBase_dropWhile_zero, hz]
      rfl
    rw [hval]
    rfl
  · rw [if_neg hz]
    rw [← foldBase_dropWhile_zero]
    apply natToDec_foldBase_eq
    · intro c hc
      exact hd c ((List.dropWhile_sublist _).subset hc)
    · exact hz
    · intro c t hct
      have := List.head?_dropWhile_not (fun c => c = '0') l
      rw [hct] at this
      simpa using this
/-!  Claim theorems. -/

lemma get_subnet_ranges_get (b m t i : Nat) (hi : i < t) :
    (get_subnet_ranges b m t).get? i = some (subnet_info b m i) := by
  rw [get_subnet_ranges, List.get?_map, List.get?_range hi]
  rfl

/-- C10: the integer-to-dotted-text conversion reduces its argument modulo
2^32 — `int_to_dotted x = int_to_dotted (x mod 2^32)` for every nonnegative
integer `x`, so addresses past the top of the 32-bit space are rendered
wrapped rather than rejected. -/
theorem int_to_dotted_wraps (x : Nat) : int_to_dotted x = int_to_dotted (x % 2 ^ 32) := by
  rw [show (2 : Nat) ^ 32 = 4294967296 by norm_num]
  exact int_to_dotted_mod x

/-- C4: the enumeration of `get_subnet_ranges` has length `totalSubnets`,
its descriptors are the `subnet_info` records in index order, consecutive
descriptors are contiguous (`broadcast + 1 = next network`), each broadcast
is its network plus `subnetSize - 1`, and network integers strictly
increase with the index. -/
theorem get_subnet_ranges_contiguous (b m t : Nat) (hm : m ≤ 32) :
    (get_subnet_ranges b m t).length = t ∧
    (∀ i, i + 1 < t → subnet_broadcast_int b m i + 1 = subnet_network_int b m (i + 1)) ∧
    (∀ i, i < t → subnet_broadcast_int b m i = subnet_network_int b m i + (subnet_size m - 1)) ∧
    (∀ i j, i < j → j < t → subnet_network_int b m i < subnet_network_int b m j) ∧
    (∀ i, i < t → (get_subnet_ranges b m t).get? i = some (subnet_info b m i)) := by
  have hs : 1 ≤ subnet_size m := Nat.one_le_two_pow
  refine ⟨?_, ?_, ?_, ?_, ?_⟩
  · simp [get_subnet_ranges]
  · intro i hi
    unfold subnet_broadcast_int subnet_network_int
    have h1 : (i + 1) * subnet_size m = i * subnet_size m + subnet_size m := by ring
    omega
  · intro i hi
    unfold subnet_broadcast_int
    omega
  · intro i j hij hjt
    unfold subnet_network_int
    have h1 : i * subnet_size m < j * subnet_size m :=
      (Nat.mul_lt_mul_right (by omega)).mpr hij
    omega
  · intro i hi
    exact get_subnet_ranges_get b m t i hi

/-- C4 witness: scenario with base 10.10.10.0, new prefix 26 and four
subnets. -/
theorem get_subnet_ranges_contiguous_witness :
    (get_subnet_ranges 168430080 26 4).length = 4 ∧
    subnet_broadcast_int 168430080 26 0 + 1 = subnet_network_int 168430080 26 1 := by
  refine ⟨(get_subnet_ranges_contiguous 168430080 26 4 (by norm_num)).1, ?_⟩
  exact (get_subnet_ranges_contiguous 168430080 26 4 (by norm_num)).2.1 0 (by norm_num)

/-- C5: every descriptor of `get_subnet_ranges` carries the "N/A" host
markers when the new prefix is at least 31, and otherwise has first host
`network + 1` and last host `broadcast - 1`. -/
theorem get_subnet_ranges_hosts (b m t i : Nat) (hm : m ≤ 32) (hi : i < t) :
    (get_subnet_ranges b m t).get? i = some (subnet_info b m i) ∧
    (31 ≤ m → (subnet_info b m i).first_host = ("N/A").data ∧
      (subnet_info b m i).last_host = ("N/A").data) ∧
    (m ≤ 30 → (subnet_info b m i).first_host =
        int_to_dotted (subnet_network_int b m i + 1) ∧
      (subnet_info b m i).last_host =
        int_to_dotted (subnet_broadcast_int b m i - 1)) := by
  refine ⟨get_subnet_ranges_get b m t i hi, ?_, ?_⟩
  · intro h31
    unfold subnet_info
    rw [if_pos h31, if_pos h31]
    exact ⟨rfl, rfl⟩
  · intro h30
    unfold subnet_info
    rw [if_neg (by omega), if_neg (by omega)]
    exact ⟨rfl, rfl⟩

/-- C5 witness: a /32 enumeration carries the markers, a /24 enumeration
carries real host bounds. -/
theorem get_subnet_ranges_hosts_witness :
    ((subnet_info 0 32 0).first_host = ("N/A").data ∧
      (subnet_info 0 32 0).last_host = ("N/A").data) ∧
    ((subnet_info 0 24 0).first_host = int_to_dotted (subnet_network_int 0 24 0 + 1) ∧
      (subnet_info 0 24 0).last_host = int_to_dotted (subnet_broadcast_int 0 24 0 - 1)) := by
  refine ⟨?_, ?_⟩
  · exact (get_subnet_ranges_hosts 0 32 1 0 (by norm_num) (by norm_num)).2.1 (by norm_num)
  · exact (get_subnet_ranges_hosts 0 24 1 0 (by norm_num) (by norm_num)).2.2 (by norm_num)

/-- C9 counterexample: prefix 30 is NOT one of the prefixes whose
descriptors carry the "N/A" markers, yet `calculate_possible_hosts 30 = 2`
is positive — so positive host counts are not reported for exactly the
marker prefixes. -/
theorem calculate_possible_hosts_cex :
    calculate_possible_hosts 30 = 2 ∧ (0 : Int) < calculate_possible_hosts 30 ∧
    (get_subnet_ranges 0 30 1).get? 0 = some
      { subnet_index := 1, network := ("0.0.0.0").data, broadcast := ("0.0.0.3").data,
        first_host := ("0.0.0.1").data, last_host := ("0.0.0.2").data } ∧
    ¬ ((("0.0.0.1").data : List Char) = ("N/A").data) := by decide

/-- C9 amended: `calculate_possible_hosts` returns `2^(32-p) - 2` for
prefixes 0..30, `2` for 31 and `1` for 32; in particular it reports
positive usable-host counts even for prefixes 31 and 32, exactly the
prefixes whose descriptors carry the "N/A" host markers. -/
theorem calculate_possible_hosts_spec :
    (∀ p : Int, 0 ≤ p → p ≤ 30 →
      calculate_possible_hosts p = 2 ^ ((32 - p).toNat) - 2) ∧
    calculate_possible_hosts 31 = 2 ∧ calculate_possible_hosts 32 = 1 ∧
    (0 : Int) < calculate_possible_hosts 31 ∧ (0 : Int) < calculate_possible_hosts 32 ∧
    (∀ b t m, 31 ≤ m → ∀ d, d ∈ get_subnet_ranges b m t →
      d.first_host = ("N/A").data ∧ d.last_host = ("N/A").data) := by
  refine ⟨?_, by decide, by decide, by decide, by decide, ?_⟩
  · intro p h0 h30
    unfold calculate_possible_hosts
    rw [if_neg (by omega), if_neg (by omega)]
  · intro b t m h31 d hd
    rw [get_subnet_ranges] at hd
    obtain ⟨i, _hi, rfl⟩ := List.mem_map.mp hd
    unfold subnet_info
    rw [if_pos h31, if_pos h31]
    exact ⟨rfl, rfl⟩

/-- C9 amended witness: concrete instances of the host-count formula and
the marker clause. -/
theorem calculate_possible_hosts_spec_witness :
    calculate_possible_hosts 24 = 254 ∧
    ((subnet_info 0 31 0).first_host = ("N/A").data ∧
      (subnet_info 0 31 0).last_host = ("N/A").data) := by
  constructor
  · have h := calculate_possible_hosts_spec.1 24 (by norm_num) (by norm_num)
    rw [h]
    decide
  · exact calculate_possible_hosts_spec.2.2.2.2.2 0 1 31 (by norm_num)
      (subnet_info 0 31 0) (by decide)

/-- C1 counterexample: with base network 255.255.255.0, new prefix 24 and
two subnets the last address 2^32 + 255 exceeds the 32-bit space, yet the
enumeration does not fail: it returns both descriptors, the second with the
wrapped network address 0.0.0.0. -/
theorem get_subnet_ranges_overflow_cex :
    4294967295 < 4294967040 + 2 * subnet_size 24 - 1 ∧
    (get_subnet_ranges 4294967040 24 2).length = 2 ∧
    (get_subnet_ranges 4294967040 24 2).get? 1 = some
      { subnet_index := 2, network := ("0.0.0.0").data, broadcast := ("0.0.0.255").data,
        first_host := ("0.0.0.1").data, last_host := ("0.0.0.254").data } := by decide

/-- C1 amended: the range enumeration never fails; for every base network,
new prefix and subnet count it returns exactly `totalSubnets` descriptors,
and each address is rendered wrapped modulo 2^32 when it runs past the top
of the address space. -/
theorem get_subnet_ranges_total (b m t : Nat) (hm : m ≤ 32) :
    (get_subnet_ranges b m t).length = t ∧
    ∀ i, i < t → (get_subnet_ranges b m t).get? i = some (subnet_info b m i) ∧
      (subnet_info b m i).network = int_to_dotted (subnet_network_int b m i % 2 ^ 32) ∧
      (subnet_info b m i).broadcast = int_to_dotted (subnet_broadcast_int b m i % 2 ^ 32) := by
  refine ⟨by simp [get_subnet_ranges], ?_⟩
  intro i hi
  refine ⟨get_subnet_ranges_get b m t i hi, ?_, ?_⟩
  · show int_to_dotted (subnet_network_int b m i) = _
    rw [show (2 : Nat) ^ 32 = 4294967296 by norm_num]
    exact int_to_dotted_mod _
  · show int_to_dotted (subnet_broadcast_int b m i) = _
    rw [show (2 : Nat) ^ 32 = 4294967296 by norm_num]
    exact int_to_dotted_mod _

/-- C1 amended witness: the overflowing enumeration of the counterexample
still returns its full descriptor list with wrapped rendering. -/
theorem get_subnet_ranges_total_witness :
    (get_subnet_ranges 4294967040 24 2).length = 2 ∧
    (subnet_info 4294967040 24 1).network =
      int_to_dotted (subnet_network_int 4294967040 24 1 % 2 ^ 32) := by
  refine ⟨(get_subnet_ranges_total 4294967040 24 2 (by norm_num)).1, ?_⟩
  exact ((get_subnet_ranges_total 4294967040 24 2 (by norm_num)).2 1 (by norm_num)).2.1
/-!  Helpers for `cidr_to_subnet_mask` results. -/

lemma cidr_to_subnet_mask_ok {p : Int} (hp0 : 0 ≤ p) (hp32 : p ≤ 32) :
    cidr_to_subnet_mask p = .ok
      (joinDot ((chunks8 (List.replicate p.toNat '1' ++
          List.replicate (32 - p.toNat) '0')).map (fun q => natToDec (foldBase 2 q))),
       joinDot (chunks8 (List.replicate p.toNat '1' ++ List.replicate (32 - p.toNat) '0'))) := by
  rw [cidr_to_subnet_mask, if_neg (show ¬¬(0 ≤ p ∧ p ≤ 32) from fun h => h ⟨hp0, hp32⟩)]

lemma maskbin_length {p : Nat} (hp : p ≤ 32) :
    (List.replicate p '1' ++ List.replicate (32 - p) '0').length = 32 := by
  simp only [List.length_append, List.length_replicate]
  omega

lemma maskbin_chars {p : Nat} :
    ∀ c ∈ List.replicate p '1' ++ List.replicate (32 - p) '0', c = '0' ∨ c = '1' := by
  intro c hc
  rcases List.mem_append.mp hc with h | h
  · exact Or.inr (List.eq_of_mem_replicate h)
  · exact Or.inl (List.eq_of_mem_replicate h)

lemma dropDots_maskbin_chunks {p : Nat} (hp : p ≤ 32) :
    dropDots (joinDot (chunks8 (List.replicate p '1' ++ List.replicate (32 - p) '0'))) =
      List.replicate p '1' ++ List.replicate (32 - p) '0' := by
  rw [dropDots_joinDot _ (fun q hq hdot => by
    have hmem := chunks8_mem_subset hq '.' hdot
    rcases maskbin_chars '.' hmem with h | h <;> exact absurd h (by decide))]
  exact chunks8_join (maskbin_length hp)

/-- C6: for every prefix in [0,32] the conversion succeeds and the integer
denoted by its binary mask string has exactly the top `p` bits of the
32-bit word set (bit `j` is set iff `32 - p ≤ j < 32`, the value is below
2^32, `p = 0` gives 0 and `p = 32` gives all bits); for every prefix
outside [0,32] it fails with the RangeError message. -/
theorem cidr_to_subnet_mask_correct (p : Int) :
    (0 ≤ p → p ≤ 32 → ∃ dm bm, cidr_to_subnet_mask p = .ok (dm, bm) ∧
      foldBase 2 (dropDots bm) = mask_int_of p.toNat ∧
      mask_int_of p.toNat < 2 ^ 32 ∧
      (∀ j, (mask_int_of p.toNat).testBit j = true ↔ 32 - p.toNat ≤ j ∧ j < 32)) ∧
    ((p < 0 ∨ 32 < p) → ∃ e, cidr_to_subnet_mask p = .error e) := by
  constructor
  · intro hp0 hp32
    have hpn : p.toNat ≤ 32 := by omega
    refine ⟨_, _, cidr_to_subnet_mask_ok hp0 hp32, ?_, ?_, ?_⟩
    · rw [dropDots_maskbin_chunks hpn]
      rfl
    · have := mask_int_of_lt hpn
      norm_num
      omega
    · exact fun j => testBit_mask_int_of hpn j
  · intro hp
    rw [cidr_to_subnet_mask, if_pos (show ¬(0 ≤ p ∧ p ≤ 32) by omega)]
    exact ⟨_, rfl⟩

/-- C6 witness: prefix 26 succeeds with the top-26-bits mask, prefix 33
fails. -/
theorem cidr_to_subnet_mask_correct_witness :
    (∃ dm bm, cidr_to_subnet_mask 26 = .ok (dm, bm) ∧
      foldBase 2 (dropDots bm) = mask_int_of (26 : Int).toNat ∧
      mask_int_of (26 : Int).toNat < 2 ^ 32 ∧
      (∀ j, (mask_int_of (26 : Int).toNat).testBit j = true ↔
        32 - (26 : Int).toNat ≤ j ∧ j < 32)) ∧
    (∃ e, cidr_to_subnet_mask 33 = .error e) :=
  ⟨(cidr_to_subnet_mask_correct 26).1 (by norm_num) (by norm_num),
   (cidr_to_subnet_mask_correct 33).2 (by norm_num)⟩

/-- C2: for every original prefix in [0,32] and desired count at least 1,
with `bits` the exact ceiling of the base-two logarithm of the count
(characterized by `count ≤ 2^bits` and minimality, `bits = 0` for count 1),
the planner returns `(originalPrefix + bits, 2^bits, bits)` exactly when
`originalPrefix + bits ≤ 32`, and fails with the CapacityError message
exactly when `originalPrefix + bits > 32`, so the boundary
`newPrefix = 32` succeeds. -/
theorem calculate_new_subnet_mask_correct (p d : Int) (hp0 : 0 ≤ p) (hp32 : p ≤ 32)
    (hd : 1 ≤ d) (bits : Nat) (hb1 : d.toNat ≤ 2 ^ bits)
    (hb2 : bits = 0 ∨ 2 ^ (bits - 1) < d.toNat) :
    (calculate_new_subnet_mask_for_subnets p d =
        .ok (p + (bits : Int), (2 : Int) ^ bits, (bits : Int)) ↔ p + (bits : Int) ≤ 32) ∧
    ((∃ e, calculate_new_subnet_mask_for_subnets p d = .error e) ↔
      32 < p + (bits : Int)) := by
  have hclog : Nat.clog 2 d.toNat = bits := by
    apply le_antisymm
    · exact (Nat.le_pow_iff_clog_le (by norm_num)).mp hb1
    · rcases hb2 with rfl | hb2
      · exact Nat.zero_le _
      · have := (Nat.pow_lt_iff_lt_clog (by norm_num)).mp hb2
        omega
  simp only [calculate_new_subnet_mask_for_subnets]
  rw [if_neg (show ¬¬(0 ≤ p ∧ p ≤ 32) from fun h => h ⟨hp0, hp32⟩),
    if_neg (show ¬(d ≤ 0) by omega), hclog]
  by_cases hc : 32 < p + (bits : Int)
  · rw [if_pos hc]
    constructor
    · constructor
      · intro h
        exact absurd h (by simp)
      · intro h
        exact absurd hc (by omega)
    · constructor
      · intro _h
        exact hc
      · intro _h
        exact ⟨_, rfl⟩
  · rw [if_neg hc]
    constructor
    · constructor
      · intro _h
        omega
      · intro _h
        have htn : ((bits : Int)).toNat = bits := Int.toNat_natCast bits
        rw [htn]
    · constructor
      · intro h
        obtain ⟨e, he⟩ := h
        exact absurd he (by simp)
      · intro h
        exact absurd h hc

/-- C2 witness: the boundary case prefix 31 with 2 desired subnets succeeds
with new prefix 32, and prefix 20 with 100000 desired subnets fails. -/
theorem calculate_new_subnet_mask_correct_witness :
    calculate_new_subnet_mask_for_subnets 31 2 = .ok (32, 2, 1) ∧
    (∃ e, calculate_new_subnet_mask_for_subnets 20 100000 = .error e) := by
  constructor
  · have h := (calculate_new_subnet_mask_correct 31 2 (by norm_num) (by norm_num)
      (by norm_num) 1 (by decide) (by decide)).1.mpr (by norm_num)
    simpa using h
  · exact (calculate_new_subnet_mask_correct 20 100000 (by norm_num) (by norm_num)
      (by norm_num) 17 (by decide) (by decide)).2.mpr (by norm_num)
/-- C8: for every address string the codec accepts and every original
prefix in [0,32], the main flow's base network integer is the bitwise AND
of the address integer with the mask integer of the original prefix. -/
theorem base_network_int_masks (s d b : List Char) (p : Int)
    (h : get_ip_address s = .ok (d, b)) (hp0 : 0 ≤ p) (hp32 : p ≤ 32) :
    base_network_int s p = .ok ((foldBase 2 (dropDots b)) &&& mask_int_of p.toNat) := by
  have hpn : p.toNat ≤ 32 := by omega
  have hmask : foldBase 2 (dropDots (joinDot (chunks8 (List.replicate p.toNat '1' ++
      List.replicate (32 - p.toNat) '0')))) = mask_int_of p.toNat := by
    rw [dropDots_maskbin_chunks hpn]
    rfl
  have hlt : (foldBase 2 (dropDots b)) &&& (foldBase 2 (dropDots (joinDot (chunks8
      (List.replicate p.toNat '1' ++ List.replicate (32 - p.toNat) '0'))))) < 4294967296 := by
    rw [hmask]
    calc (foldBase 2 (dropDots b)) &&& mask_int_of p.toNat
        ≤ mask_int_of p.toNat := Nat.and_le_right
      _ < 4294967296 := mask_int_of_lt hpn
  simp only [base_network_int, h, cidr_to_subnet_mask_ok hp0 hp32, Bind.bind, Except.bind]
  rw [get_network_address_bin _ _ hlt, hmask]

/-- C8 witness: address 255.255.255.255 with original prefix 0 yields base
network integer 0 (address 0.0.0.0). -/
theorem base_network_int_masks_witness :
    base_network_int (("255.255.255.255").data) 0 = .ok 0 := by
  have h := base_network_int_masks (("255.255.255.255").data) (("255.255.255.255").data)
    (("11111111.11111111.11111111.11111111").data) 0 (by decide) (by norm_num) (by norm_num)
  rw [h]
  decide

lemma foldBase_four_bytes {v1 v2 v3 v4 : Nat} (h1 : v1 ≤ 255) (h2 : v2 ≤ 255)
    (h3 : v3 ≤ 255) (h4 : v4 ≤ 255) :
    foldBase 2 (dropDots (joinDot [format08b v1, format08b v2, format08b v3, format08b v4])) =
      ((v1 * 256 + v2) * 256 + v3) * 256 + v4 := by
  have hnd : ∀ q ∈ [format08b v1, format08b v2, format08b v3, format08b v4], ¬ '.' ∈ q := by
    intro q hq hdot
    simp only [List.mem_cons, List.mem_singleton, List.not_mem_nil, or_false] at hq
    rcases hq with rfl | rfl | rfl | rfl <;>
      rcases format08b_chars '.' hdot with h | h <;> exact absurd h (by decide)
  rw [dropDots_joinDot _ hnd]
  show foldBase 2 (format08b v1 ++ (format08b v2 ++ (format08b v3 ++ (format08b v4 ++ [])))) = _
  rw [List.append_nil, foldBase_append, foldBase_append, foldBase_append,
    foldBase_format08b, foldBase_format08b, foldBase_format08b, foldBase_format08b,
    List.length_append, List.length_append,
    format08b_length (by omega), format08b_length (by omega), format08b_length (by omega)]
  ring

/-- C7 counterexample: the raw input " 1.2.3.4" splits on dots into four
parts of which the first, " 1", is not a digit-only literal, so by the
claim parsing must fail with FormatError; the code strips surrounding
whitespace first and accepts it. -/
theorem get_ip_address_strip_cex :
    splitDot ((" 1.2.3.4").data) =
      [(" 1").data, ("2").data, ("3").data, ("4").data] ∧
    pyIsDigit ((" 1").data) = false ∧
    get_ip_address ((" 1.2.3.4").data) =
      .ok (("1.2.3.4").data, ("00000001.00000010.00000011.00000100").data) := by decide

/-- C7 amended: after stripping leading and trailing whitespace from the
whole input, parsing fails with the FormatError message unless the result
splits on dots into exactly four parts; the four parts are then checked
left to right, the first part that is not a digit-only literal giving the
FormatError message naming it and the first all-digit part whose value
exceeds 255 giving the RangeError message naming it; when all four parts
are digit-only with values at most 255 it succeeds and the returned binary
string denotes the 32-bit integer packing the octets
most-significant-first. -/
theorem get_ip_address_spec :
    (∀ s, ¬ ((splitDot (pyStrip s)).length = 4) →
      get_ip_address s = .error (("The IPv4 address must have exactly four octets.").data)) ∧
    (∀ s pre q post, splitDot (pyStrip s) = pre ++ q :: post →
      (∀ r ∈ pre, pyIsDigit r = true ∧ foldBase 10 r ≤ 255) →
      pyIsDigit q = false →
      (pre ++ q :: post).length = 4 →
      get_ip_address s = .error (("Octet ").data ++ squote :: q ++ squote ::
        ((" is not a valid number.").data))) ∧
    (∀ s pre q post, splitDot (pyStrip s) = pre ++ q :: post →
      (∀ r ∈ pre, pyIsDigit r = true ∧ foldBase 10 r ≤ 255) →
      pyIsDigit q = true → 255 < foldBase 10 q →
      (pre ++ q :: post).length = 4 →
      get_ip_address s = .error (("Octet ").data ++ squote :: q ++ squote ::
        ((" is outside 0-255 range.").data))) ∧
    (∀ s p1 p2 p3 p4, splitDot (pyStrip s) = [p1, p2, p3, p4] →
      (∀ r ∈ [p1, p2, p3, p4], pyIsDigit r = true ∧ foldBase 10 r ≤ 255) →
      ∃ dd bb, get_ip_address s = .ok (dd, bb) ∧
        foldBase 2 (dropDots bb) =
          ((foldBase 10 p1 * 256 + foldBase 10 p2) * 256 + foldBase 10 p3) * 256 +
            foldBase 10 p4) := by
  refine ⟨?_, ?_, ?_, ?_⟩
  · intro s h4
    exact get_ip_address_len_err s h4
  · intro s pre q post hsplit hpre hq h4
    apply get_ip_address_err_of_validate s _ (by rw [hsplit]; exact h4)
    rw [hsplit]
    exact validate_octets_err_nondigit pre q post hpre hq
  · intro s pre q post hsplit hpre hq hgt h4
    apply get_ip_address_err_of_validate s _ (by rw [hsplit]; exact h4)
    rw [hsplit]
    exact validate_octets_err_range pre q post hpre hq hgt
  · intro s p1 p2 p3 p4 hsplit hall
    refine ⟨_, _, get_ip_address_ok s (by rw [hsplit]; rfl)
      (fun r hr => hall r (hsplit ▸ hr)), ?_⟩
    rw [hsplit]
    simp only [List.map_cons, List.map_nil]
    rw [foldBase_four_bytes (hall p1 (by simp)).2 (hall p2 (by simp)).2
      (hall p3 (by simp)).2 (hall p4 (by simp)).2]

/-- C7 amended witness: a two-part input gives the four-octets error, an
out-of-range octet gives the range error naming it, and a valid input
returns the packed integer. -/
theorem get_ip_address_spec_witness :
    get_ip_address (("1.2").data) =
      .error (("The IPv4 address must have exactly four octets.").data) ∧
    get_ip_address (("1.2.3.444").data) =
      .error (("Octet ").data ++ squote :: ("444").data ++ squote ::
        ((" is outside 0-255 range.").data)) ∧
    (∃ dd bb, get_ip_address (("1.2.3.4").data) = .ok (dd, bb) ∧
      foldBase 2 (dropDots bb) =
        ((foldBase 10 (("1").data) * 256 + foldBase 10 (("2").data)) * 256 +
          foldBase 10 (("3").data)) * 256 + foldBase 10 (("4").data)) := by
  refine ⟨?_, ?_, ?_⟩
  · exact get_ip_address_spec.1 (("1.2").data) (by decide)
  · exact get_ip_address_spec.2.2.1 (("1.2.3.444").data)
      [("1").data, ("2").data, ("3").data] (("444").data) []
      (by decide) (by decide) (by decide) (by decide) (by decide)
  · exact get_ip_address_spec.2.2.2 (("1.2.3.4").data)
      (("1").data) (("2").data) (("3").data) (("4").data) (by decide) (by decide)
lemma pyIsDigit_inv {l : List Char} (h : pyIsDigit l = true) :
    ¬ (l = []) ∧ ∀ c ∈ l, isDigitCh c = true := by
  unfold pyIsDigit at h
  rw [Bool.and_eq_true, List.all_eq_true] at h
  refine ⟨?_, h.2⟩
  intro he
  subst he
  exact absurd h.1 (by decide)

lemma list_len4 {α : Type _} {l : List α} (h : l.length = 4) :
    ∃ a b c d, l = [a, b, c, d] := by
  rcases l with _ | ⟨a, _ | ⟨b, _ | ⟨c, _ | ⟨d, _ | ⟨e, t⟩⟩⟩⟩⟩ <;>
    simp only [List.length_nil, List.length_cons] at h <;>
    first
    | omega
    | exact ⟨a, b, c, d, rfl⟩

/-- C3: the address codec round-trips.  Parsing the dotted rendering of any
32-bit integer succeeds and the binary string returned denotes that same
integer; and for any digit-and-dot string the parser accepts, rendering the
parsed integer gives the normalized input, each octet stripped of leading
zeros. -/
theorem codec_roundtrip :
    (∀ x : Nat, x < 2 ^ 32 → ∃ dd bb, get_ip_address (int_to_dotted x) = .ok (dd, bb) ∧
      foldBase 2 (dropDots bb) = x) ∧
    (∀ s dd bb, get_ip_address s = .ok (dd, bb) →
      (∀ c ∈ s, isDigitCh c = true ∨ c = '.') →
      int_to_dotted (foldBase 2 (dropDots bb)) = normalize_spec s) := by
  constructor
  · intro x hx
    have h32 : (2 : Nat) ^ 32 = 4294967296 := by norm_num
    rw [h32] at hx
    have hb1 : x / 16777216 % 256 ≤ 255 := by omega
    have hb2 : x / 65536 % 256 ≤ 255 := by omega
    have hb3 : x / 256 % 256 ≤ 255 := by omega
    have hb4 : x % 256 ≤ 255 := by omega
    have hdigits : ∀ q ∈ [natToDec (x / 16777216 % 256), natToDec (x / 65536 % 256),
        natToDec (x / 256 % 256), natToDec (x % 256)], ∀ c ∈ q, isDigitCh c = true := by
      intro q hq
      simp only [List.mem_cons, List.mem_singleton, List.not_mem_nil, or_false] at hq
      rcases hq with rfl | rfl | rfl | rfl <;> exact natToDec_all_digit _
    have hstrip : pyStrip (joinDot [natToDec (x / 16777216 % 256), natToDec (x / 65536 % 256),
        natToDec (x / 256 % 256), natToDec (x % 256)]) =
        joinDot [natToDec (x / 16777216 % 256), natToDec (x / 65536 % 256),
        natToDec (x / 256 % 256), natToDec (x % 256)] :=
      pyStrip_joinDot_digits hdigits
    have hsplit : splitDot (joinDot [natToDec (x / 16777216 % 256), natToDec (x / 65536 % 256),
        natToDec (x / 256 % 256), natToDec (x % 256)]) =
        [natToDec (x / 16777216 % 256), natToDec (x / 65536 % 256),
        natToDec (x / 256 % 256), natToDec (x % 256)] := by
      apply splitDot_joinDot _ (by simp)
      intro q hq
      simp only [List.mem_cons, List.mem_singleton, List.not_mem_nil, or_false] at hq
      rcases hq with rfl | rfl | rfl | rfl <;> exact natToDec_no_dot _
    have hparts : splitDot (pyStrip (int_to_dotted x)) =
        [natToDec (x / 16777216 % 256), natToDec (x / 65536 % 256),
        natToDec (x / 256 % 256), natToDec (x % 256)] := by
      rw [int_to_dotted_eq, hstrip, hsplit]
    have hvalid : ∀ q ∈ splitDot (pyStrip (int_to_dotted x)),
        pyIsDigit q = true ∧ foldBase 10 q ≤ 255 := by
      rw [hparts]
      intro q hq
      simp only [List.mem_cons, List.mem_singleton, List.not_mem_nil, or_false] at hq
      rcases hq with rfl | rfl | rfl | rfl <;>
        exact ⟨natToDec_isDigit _, by rw [foldBase10_natToDec]; omega⟩
    refine ⟨_, _, get_ip_address_ok (int_to_dotted x) (by rw [hparts]; rfl) hvalid, ?_⟩
    rw [hparts]
    simp only [List.map_cons, List.map_nil]
    rw [foldBase10_natToDec, foldBase10_natToDec, foldBase10_natToDec, foldBase10_natToDec,
      foldBase_four_bytes hb1 hb2 hb3 hb4]
    omega
  · intro s dd bb hok hchars
    obtain ⟨h4, hvalid, hdd, hbb⟩ := get_ip_address_ok_inv hok
    have hstrip : pyStrip s = s := pyStrip_eq_self (fun c hc => by
      rcases hchars c hc with h | h
      · exact digit_not_space h
      · rw [h]
        exact dot_not_space)
    rw [hstrip] at h4 hvalid hbb
    obtain ⟨p1, p2, p3, p4, hpeq⟩ := list_len4 h4
    rw [hpeq] at hvalid hbb
    obtain ⟨hq1, hle1⟩ := hvalid p1 (by simp)
    obtain ⟨hq2, hle2⟩ := hvalid p2 (by simp)
    obtain ⟨hq3, hle3⟩ := hvalid p3 (by simp)
    obtain ⟨hq4, hle4⟩ := hvalid p4 (by simp)
    have hX : foldBase 2 (dropDots bb) =
        ((foldBase 10 p1 * 256 + foldBase 10 p2) * 256 + foldBase 10 p3) * 256 +
          foldBase 10 p4 := by
      rw [hbb]
      simp only [List.map_cons, List.map_nil]
      exact foldBase_four_bytes hle1 hle2 hle3 hle4
    rw [hX]
    have e1 : (((foldBase 10 p1 * 256 + foldBase 10 p2) * 256 + foldBase 10 p3) * 256 +
        foldBase 10 p4) / 16777216 % 256 = foldBase 10 p1 := by omega
    have e2 : (((foldBase 10 p1 * 256 + foldBase 10 p2) * 256 + foldBase 10 p3) * 256 +
        foldBase 10 p4) / 65536 % 256 = foldBase 10 p2 := by omega
    have e3 : (((foldBase 10 p1 * 256 + foldBase 10 p2) * 256 + foldBase 10 p3) * 256 +
        foldBase 10 p4) / 256 % 256 = foldBase 10 p3 := by omega
    have e4 : (((foldBase 10 p1 * 256 + foldBase 10 p2) * 256 + foldBase 10 p3) * 256 +
        foldBase 10 p4) % 256 = foldBase 10 p4 := by omega
    rw [int_to_dotted_eq, e1, e2, e3, e4]
    unfold normalize_spec
    rw [hpeq]
    simp only [List.map_cons, List.map_nil]
    obtain ⟨hne1, hd1⟩ := pyIsDigit_inv hq1
    obtain ⟨hne2, hd2⟩ := pyIsDigit_inv hq2
    obtain ⟨hne3, hd3⟩ := pyIsDigit_inv hq3
    obtain ⟨hne4, hd4⟩ := pyIsDigit_inv hq4
    rw [natToDec_stripLeadingZeros hne1 hd1, natToDec_stripLeadingZeros hne2 hd2,
      natToDec_stripLeadingZeros hne3 hd3, natToDec_stripLeadingZeros hne4 hd4]

/-- C3 witness: the integer of 192.168.1.1 round-trips through the dotted
rendering, and the string 010.0.3.255 parses and re-renders with its
leading zero stripped. -/
theorem codec_roundtrip_witness :
    (∃ dd bb, get_ip_address (int_to_dotted 3232235777) = .ok (dd, bb) ∧
      foldBase 2 (dropDots bb) = 3232235777) ∧
    int_to_dotted (foldBase 2 (dropDots (("00001010.00000000.00000011.11111111").data))) =
      normalize_spec (("010.0.3.255").data) := by
  constructor
  · exact codec_roundtrip.1 3232235777 (by norm_num)
  · exact codec_roundtrip.2 (("010.0.3.255").data) (("10.0.3.255").data)
      (("00001010.00000000.00000011.11111111").data) (by decide) (by decide)
